import Mathlib

/-!
Verification of the stock/crypto chatbot core (`chatbot.py`).

This file shallowly embeds the four core components of the repository —
the domain classifier `is_related_to_stocks_crypto`, the quote fetcher
`get_stock_price`, the markup formatter `process_text`, and the response
orchestrator `response_generator` — as executable Lean definitions, and
proves properties of them.

Modelling conventions:
* Python strings are modelled as Lean `String` / `List Char`; the handful
  of Python string primitives used by the source (`in`, `str.replace`
  with count 1, `str.count`, `str.split`, `str.strip`, `str.startswith`,
  `str.lower`, `str.upper`) are re-implemented below as structurally
  recursive functions so that everything evaluates inside the kernel.
* The two external collaborators (the language-model API and the
  market-data provider) are modelled as an explicit `Oracle` record: the
  output array of each of the two model calls of one turn, the ticker
  probe used by the classifier, and the price fetch.  A Python exception
  raised by the provider is modelled as `Except.error msg`.
* Python floats are modelled as rationals; `round(x, 2)` is modelled as
  round-half-to-even on `ℚ` scaled by 100 (the binary representation
  error of doubles is abstracted away).
* Fallible code is modelled in `Except`: the two statements of
  `response_generator` that can raise an uncaught exception
  (`json.loads(tool_call.arguments)["ticker"]` on malformed arguments,
  and `.content[0].text` on a content element without a `text` field)
  surface as `Except.error`.
-/

/-! ## Python string primitives on `List Char` -/

/-- `isPre p l` : does the list `l` start with `p`?  Models Python
`str.startswith` (on exploded strings). -/
def isPre : List Char → List Char → Bool
  | [], _ => true
  | _ :: _, [] => false
  | a :: as, b :: bs => a = b && isPre as bs

/-- `containsPat pat l` : does `l` contain `pat` as a contiguous
sublist?  Models Python's substring operator `pat in l`. -/
def containsPat (pat : List Char) : List Char → Bool
  | [] => pat.isEmpty
  | c :: rest => isPre pat (c :: rest) || containsPat pat rest

/-- Replace the first (leftmost) occurrence of `pat` by `rep`; identity
when `pat` does not occur.  Models Python `str.replace(pat, rep, 1)` for
non-empty `pat`. -/
def replaceFirst (pat rep : List Char) : List Char → List Char
  | [] => []
  | c :: rest =>
    if isPre pat (c :: rest) then rep ++ (c :: rest).drop pat.length
    else c :: replaceFirst pat rep rest

/-- Number of occurrences of the single character `c`.  Models Python
`str.count` on a one-character pattern. -/
def countChar (c : Char) : List Char → Nat
  | [] => 0
  | x :: rest => (if x = c then 1 else 0) + countChar c rest

/-- Number of non-overlapping occurrences of the two-character pattern
`[a, b]`, counted greedily from the left.  Models Python `str.count` on a
two-character pattern (the shape of the `**` / `__` markers). -/
def countOcc2 (a b : Char) : List Char → Nat
  | [] => 0
  | [_] => 0
  | c :: d :: rest =>
    if c = a ∧ d = b then 1 + countOcc2 a b rest
    else countOcc2 a b (d :: rest)

/-- Split at every character satisfying `p`, keeping empty pieces.
Models Python `str.split(sep)` for a one-character separator (with
`p := (· = sep)`). -/
def splitOnPred (p : Char → Bool) : List Char → List (List Char)
  | [] => [[]]
  | c :: rest =>
    if p c then [] :: splitOnPred p rest
    else (c :: (splitOnPred p rest).headD []) :: (splitOnPred p rest).tail

/-- Python `str.split()` (no argument): split on whitespace and drop
empty pieces. -/
def pySplitWs (l : List Char) : List (List Char) :=
  (splitOnPred Char.isWhitespace l).filter (fun w => !w.isEmpty)

/-- Python `str.strip()`: drop whitespace from both ends. -/
def pyStrip (l : List Char) : List Char :=
  ((l.dropWhile Char.isWhitespace).reverse.dropWhile Char.isWhitespace).reverse

/-- Python `str.lower()` (ASCII case folding, as used by the source's
keyword matching). -/
def pyLower (s : String) : String := String.mk (s.data.map Char.toLower)

/-- Python `str.upper()` (ASCII case folding, as used on tickers and
candidate company names). -/
def pyUpper (s : String) : String := String.mk (s.data.map Char.toUpper)

/-! String-level wrappers used by the component embeddings. -/

/-- Python `needle in hay` on strings. -/
def pyContains (hay needle : String) : Bool := containsPat needle.data hay.data

/-- Python `str.split()` on strings: whitespace split, empties dropped. -/
def pySplitWsStr (s : String) : List String := (pySplitWs s.data).map String.mk

/-- Python `str.split(" ")` on strings: split on every single space,
keeping empty pieces. -/
def pySplitSpaceStr (s : String) : List String :=
  (splitOnPred (fun c => c = ' ') s.data).map String.mk

/-! ## Domain classifier (`is_related_to_stocks_crypto`, chatbot.py:58-141) -/

/-- The fixed finance/crypto keyword list (chatbot.py:60-79).  Note the
last entry `"XAUUSD"` is kept verbatim, uppercase as in the source. -/
def keywords : List String :=
  ["stock", "stocks", "crypto", "cryptocurrency", "trade", "trading",
   "market", "price", "invest", "investment", "bitcoin", "ethereum",
   "portfolio", "bull", "bear", "exchange", "gold", "XAUUSD"]

/-- The business-generic keyword list (chatbot.py:82-94). -/
def company_keywords : List String :=
  ["company", "business", "corporation", "inc", "ltd", "information",
   "operations", "industry", "revenue", "products", "services"]

/-- The well-known company fallback list (chatbot.py:121-136). -/
def known_companies : List String :=
  ["tesla", "apple", "microsoft", "google", "amazon", "facebook",
   "nvidia", "coinbase", "binance", "netflix", "ford", "gm", "boeing",
   "hp"]

/-- First character is an uppercase letter; Python `word[0].isupper()`
(the words come from `str.split()`, hence are non-empty). -/
def headIsUpper (w : String) : Bool :=
  match w.data with
  | [] => false
  | c :: _ => c.isUpper

/-- The domain classifier (chatbot.py:58-141).  `probe t` models the
network tier `yf.Ticker(t)` / `ticker.info and "symbol" in ticker.info`
applied to the uppercased candidate company name; a probe that raises is
modelled as `probe _ = false` (the source swallows the exception and
continues). -/
def is_related_to_stocks_crypto (probe : String → Bool) (query : String) : Bool :=
  let query_lower := pyLower query
  if keywords.any (fun k => pyContains query_lower k) then true
  else
    let tier2 : Bool :=
      if company_keywords.any (fun k => pyContains query_lower k) then
        let words := pySplitWsStr query
        let potential_companies :=
          words.filter (fun w => headIsUpper w && decide (w.length > 2))
        potential_companies.any (fun c => probe (pyUpper c))
      else false
    if tier2 then true
    else known_companies.any (fun k => pyContains query_lower k)

/-! ## Quote fetcher (`get_stock_price`, chatbot.py:29-35) -/

/-- The value returned by `get_stock_price`: a rounded price on success,
an inline error string on any provider failure. -/
inductive PriceVal where
  | num (q : ℚ)
  | err (s : String)
deriving DecidableEq

/-- Python `round(x, 2)` on the modelled rational prices: round
`q * 100` to the nearest integer (ties to even, Python's tie rule) and
divide by 100 again.  Implemented on the numerator/denominator integers
(`q * 100 = (q.num * 100) / q.den`, `f` its floor, `r2` twice the
remainder) so that it evaluates inside the kernel. -/
def round2 (q : ℚ) : ℚ :=
  let n : ℤ := q.num * 100
  let d : ℤ := (q.den : ℤ)
  let f : ℤ := n.fdiv d
  let r2 : ℤ := 2 * (n - f * d)
  let c : ℤ :=
    if r2 < d then f
    else if d < r2 then f + 1
    else if f % 2 = 0 then f else f + 1
  Rat.divInt c 100

/-- The quote fetcher (chatbot.py:29-35).  `fetch` models the whole
provider interaction `yf.Ticker(t).history(period="1d")["Close"].iloc[-1]`
at the uppercased ticker: `Except.ok q` is a retrieved closing price,
`Except.error e` is any raised exception with message `e` (unknown
symbol, network error, empty series).  The `try/except` of the source
maps the error case to an inline string. -/
def get_stock_price (fetch : String → Except String ℚ) (ticker : String) : PriceVal :=
  match fetch (pyUpper ticker) with
  | Except.ok price => PriceVal.num (round2 price)
  | Except.error e =>
      PriceVal.err ("Error fetching price for " ++ ticker ++ ": " ++ e)

/-! ## Markup formatter (`process_text`, chatbot.py:173-213) -/

/-- One iteration of the bold loop
`line = line.replace("**", "<b>", 1).replace("**", "</b>", 1)`
(chatbot.py:197-198). -/
def boldStep (l : List Char) : List Char :=
  replaceFirst ['*', '*'] ("</b>").data (replaceFirst ['*', '*'] ("<b>").data l)

/-- One iteration of the underscore-bold loop
`line = line.replace("__", "<b>", 1).replace("__", "</b>", 1)`
(chatbot.py:199-200). -/
def underBoldStep (l : List Char) : List Char :=
  replaceFirst ['_', '_'] ("</b>").data (replaceFirst ['_', '_'] ("<b>").data l)

/-- One iteration of the italics loop
`line = line.replace("*", "<i>", 1).replace("*", "</i>", 1)`
(chatbot.py:203-204). -/
def italStep (l : List Char) : List Char :=
  replaceFirst ['*'] ("</i>").data (replaceFirst ['*'] ("<i>").data l)

/-- One iteration of the underscore-italics loop
`line = line.replace("_", "<i>", 1).replace("_", "</i>", 1)`
(chatbot.py:208). -/
def underItalStep (l : List Char) : List Char :=
  replaceFirst ['_'] ("</i>").data (replaceFirst ['_'] ("<i>").data l)

/-- `while "**" in line:` (chatbot.py:197), written with explicit fuel;
`boldRun` below supplies fuel that is provably sufficient (see
`boldLoop_no_pat`), so the fuelled function agrees with the Python
`while` loop. -/
def boldLoop : Nat → List Char → List Char
  | 0, l => l
  | fuel + 1, l => if containsPat ['*', '*'] l then boldLoop fuel (boldStep l) else l

/-- `while "__" in line:` (chatbot.py:199), fuelled. -/
def underBoldLoop : Nat → List Char → List Char
  | 0, l => l
  | fuel + 1, l =>
    if containsPat ['_', '_'] l then underBoldLoop fuel (underBoldStep l) else l

/-- `while "*" in line and line.count("*") >= 2:` (chatbot.py:203), fuelled. -/
def italLoop : Nat → List Char → List Char
  | 0, l => l
  | fuel + 1, l =>
    if containsPat ['*'] l && decide (2 ≤ countChar '*' l) then
      italLoop fuel (italStep l)
    else l

/-- `while "_" in line and line.count("_") >= 2 and "__" not in line:`
(chatbot.py:205-208), fuelled. -/
def underItalLoop : Nat → List Char → List Char
  | 0, l => l
  | fuel + 1, l =>
    if containsPat ['_'] l && decide (2 ≤ countChar '_' l) &&
        !containsPat ['_', '_'] l then
      underItalLoop fuel (underItalStep l)
    else l

/-- The bold loop run with sufficient fuel (the length of the line). -/
def boldRun (l : List Char) : List Char := boldLoop l.length l

/-- The underscore-bold loop run with sufficient fuel. -/
def underBoldRun (l : List Char) : List Char := underBoldLoop l.length l

/-- The italics loop run with sufficient fuel. -/
def italRun (l : List Char) : List Char := italLoop l.length l

/-- The underscore-italics loop run with sufficient fuel. -/
def underItalRun (l : List Char) : List Char := underItalLoop l.length l

/-- The four inline-substitution passes, in source order (chatbot.py:195-208). -/
def processInline (l : List Char) : List Char :=
  underItalRun (italRun (underBoldRun (boldRun l)))

/-- Per-line processing of `process_text` (chatbot.py:178-210): blank
lines become `<br>` and skip inline processing; heading prefixes
`"### "`, `"## "`, `"# "` are checked in that order on the raw line;
all other lines are wrapped in `<p>`; then the inline passes run. -/
def processLine (line : List Char) : List Char :=
  if (pyStrip line).isEmpty then ("<br>").data
  else
    let blocked :=
      if isPre ("### ").data line then
        ("<h3>").data ++ pyStrip (line.drop 4) ++ ("</h3>").data
      else if isPre ("## ").data line then
        ("<h2>").data ++ pyStrip (line.drop 3) ++ ("</h2>").data
      else if isPre ("# ").data line then
        ("<h1>").data ++ pyStrip (line.drop 2) ++ ("</h1>").data
      else ("<p>").data ++ pyStrip line ++ ("</p>").data
    processInline blocked

/-- The markup formatter (chatbot.py:173-213): split on newlines, process
each line, concatenate with no separator (`"".join(processed_lines)`). -/
def process_text (text : String) : String :=
  String.mk (((splitOnPred (fun c => c = '\n') text.data).map processLine).flatten)

/-! ## Response orchestrator (`response_generator`, chatbot.py:145-291) -/

/-- One element of a message item's `content` list.  `text = some t`
models a content element with a `text` attribute holding `t`;
`text = none` models a content element without a `text` attribute
(accessing `.text` on it raises `AttributeError`). -/
structure ContentItem where
  text : Option String
deriving DecidableEq

/-- One item of the model response's `output` array.
`functionCall name tickerArg` models a function-call item;
`tickerArg` is the result of `json.loads(item.arguments)["ticker"]`:
`some t` when the arguments string is a JSON object with a `"ticker"`
field holding `t`, `none` when `json.loads` or the key lookup raises
(malformed JSON / missing key).  `message content` models a message item
(it has a `content` attribute); `other` models any further item shape
(no `content` attribute). -/
inductive OutputItem where
  | functionCall (name : String) (tickerArg : Option String)
  | message (content : List ContentItem)
  | other
deriving DecidableEq

/-- The external collaborators of one turn: the classifier's ticker
probe, the output arrays returned by the first and the follow-up model
calls, and the market-data fetch used by `get_stock_price`. -/
structure Oracle where
  probe : String → Bool
  first : List OutputItem
  followUp : List OutputItem
  fetch : String → Except String ℚ

/-- The uncaught exceptions `response_generator` can raise:
`jsonError` for `json.loads(tool_call.arguments)["ticker"]` failing
(chatbot.py:227-228), `attrError` for `.content[0].text` on a follow-up
content element without a `text` field (chatbot.py:263). -/
inductive GenError where
  | jsonError
  | attrError
deriving DecidableEq

/-- `hasattr(output, "type") and output.type == "function_call"`
(chatbot.py:219). -/
def isToolCall : OutputItem → Bool
  | OutputItem.functionCall _ _ => true
  | _ => false

/-- Python string rendering of a modelled price, used for the f-string
`f"The latest price for {ticker} is ${price}"` (chatbot.py:235):
`str()` of the rounded float for a number (integer part, a dot, the
cent part with a trailing zero dropped), the error string itself
otherwise. -/
def priceStr : PriceVal → String
  | PriceVal.err s => s
  | PriceVal.num q =>
    let neg := decide (q.num < 0)
    let ipcents : ℕ := q.num.natAbs * 100 / q.den
    let ip : ℕ := ipcents / 100
    let cents : ℕ := ipcents % 100
    let frac :=
      if cents % 10 = 0 then toString (cents / 10)
      else if cents < 10 then "0" ++ toString cents
      else toString cents
    (if neg then "-" else "") ++ toString ip ++ "." ++ frac

/-- `stock_prices[ticker] = price` (chatbot.py:230): Python dict
assignment on an insertion-ordered association list — an existing key
keeps its position and gets the new value, a new key is appended. -/
def updMap (m : List (String × PriceVal)) (k : String) (v : PriceVal) :
    List (String × PriceVal) :=
  if m.any (fun p => p.1 = k) then
    m.map (fun p => if p.1 = k then (k, v) else p)
  else m ++ [(k, v)]

/-- Association-list lookup (reading a Python dict entry). -/
def lookupMap : List (String × PriceVal) → String → Option PriceVal
  | [], _ => none
  | p :: rest, k => if p.1 = k then some p.2 else lookupMap rest k

/-- The tool-resolution loop (chatbot.py:224-230): for each
`function_call` item named `get_stock_price`, parse the ticker argument
(raising `jsonError` when the arguments are malformed), fetch the price
and write it into the mapping under the raw ticker string. -/
def buildStockPricesAux (fetch : String → Except String ℚ)
    (m : List (String × PriceVal)) :
    List OutputItem → Except GenError (List (String × PriceVal))
  | [] => Except.ok m
  | OutputItem.functionCall n arg :: rest =>
    if n = "get_stock_price" then
      match arg with
      | some t => buildStockPricesAux fetch (updMap m t (get_stock_price fetch t)) rest
      | none => Except.error GenError.jsonError
    else buildStockPricesAux fetch m rest
  | _ :: rest => buildStockPricesAux fetch m rest

/-- The tool-resolution loop started on the empty mapping. -/
def buildStockPrices (fetch : String → Except String ℚ)
    (calls : List OutputItem) : Except GenError (List (String × PriceVal)) :=
  buildStockPricesAux fetch [] calls

/-- `"\n".join(f"The latest price for {ticker} is ${price}" ...)`
(chatbot.py:233-238). -/
def toolResultsStr (m : List (String × PriceVal)) : String :=
  String.intercalate "\n"
    (m.map (fun p => "The latest price for " ++ p.1 ++ " is $" ++ priceStr p.2))

/-- The fixed refusal sentence (chatbot.py:149). -/
def refusalText : String :=
  "I can only answer questions about stocks, cryptocurrency, or trading. Please ask about one of those topics!"

/-- The fixed empty-output error message (chatbot.py:166). -/
def noResponseText : String := "No response received from the API"

/-- The fixed unrecognized-shape error message (chatbot.py:289). -/
def unableText : String := "Error: Unable to process the response"

/-- Token stream of a fixed message: `for word in text.split(): yield
word + " "` (chatbot.py:147-151, 166-168, 289-291). -/
def streamWs (s : String) : List String :=
  (pySplitWsStr s).map (fun w => w ++ " ")

/-- Token stream of a formatted answer: apply `process_text`, split on
single spaces, `yield word + " "` (chatbot.py:264-268, 271-275,
283-287). -/
def streamFormatted (s : String) : List String :=
  (pySplitSpaceStr (process_text s)).map (fun w => w ++ " ")

/-- The direct-response branch (chatbot.py:276-291): taken when the
first response has no function-call item; streams the formatted text of
the first output item when it is a message with a non-empty content
list whose first element has a `text` attribute, the fixed
`unableText` message otherwise. -/
def directBranch (first : List OutputItem) : Except GenError (List String) :=
  match first with
  | OutputItem.message (c :: _) :: _ =>
    match c.text with
    | some t => Except.ok (streamFormatted t)
    | none => Except.ok (streamWs unableText)
  | _ => Except.ok (streamWs unableText)

/-- The follow-up handling (chatbot.py:256-275): when the follow-up
response has a first output item with a non-empty content list, access
`.content[0].text` (raising `attrError` when the element has no `text`
attribute) and stream its formatted text; otherwise stream the
formatted joined tool results as fallback. -/
def followUpBranch (fu : List OutputItem) (tool_results : String) :
    Except GenError (List String) :=
  match fu with
  | OutputItem.message (c :: _) :: _ =>
    match c.text with
    | some t => Except.ok (streamFormatted t)
    | none => Except.error GenError.attrError
  | _ => Except.ok (streamFormatted tool_results)

/-- The response orchestrator (chatbot.py:145-291), returning the list
of yielded tokens (or the modelled uncaught exception) together with
the number of language-model API calls made on the turn.  The
per-token `time.sleep(0.1)` delays and the debugging `print`s of the
source are presentation effects with no bearing on the token values and
are not modelled. -/
def response_generator (o : Oracle) (query : String) :
    Except GenError (List String) × ℕ :=
  if is_related_to_stocks_crypto o.probe query then
    if o.first.isEmpty then (Except.ok (streamWs noResponseText), 1)
    else
      let tool_calls := o.first.filter isToolCall
      if tool_calls.isEmpty then (directBranch o.first, 1)
      else
        match buildStockPrices o.fetch tool_calls with
        | Except.error e => (Except.error e, 1)
        | Except.ok m => (followUpBranch o.followUp (toolResultsStr m), 2)
  else (Except.ok (streamWs refusalText), 0)

/-! ## Auxiliary specification-side definitions and concrete instances -/

/-- Keys of a Python dict in insertion order: first occurrence of each
key keeps its position, later duplicates are dropped. -/
def dedupKeepFirstAux (seen : List String) : List String → List String
  | [] => []
  | t :: rest =>
    if seen.any (fun s => s = t) then dedupKeepFirstAux seen rest
    else t :: dedupKeepFirstAux (seen ++ [t]) rest

/-- Deduplication keeping the first occurrence of each element. -/
def dedupKeepFirst (l : List String) : List String := dedupKeepFirstAux [] l

/-- A function-call output item for `get_stock_price` with a
well-formed ticker argument. -/
def fcTicker (t : String) : OutputItem :=
  OutputItem.functionCall "get_stock_price" (some t)

/-- A probe that never resolves a candidate ticker. -/
def probeFalse : String → Bool := fun _ => false

/-- A concrete provider: raises for `"ZZZZ"`, returns 150.25 otherwise. -/
def fetchW : String → Except String ℚ :=
  fun s =>
    if s = "ZZZZ" then Except.error "no price data found"
    else Except.ok (Rat.divInt 601 4)

/-- A concrete provider that always returns 150.25. -/
def fetchOk : String → Except String ℚ := fun _ => Except.ok (Rat.divInt 601 4)

/-- A concrete turn: both model calls return empty output. -/
def emptyOracle : Oracle :=
  { probe := probeFalse, first := [], followUp := [], fetch := fun _ => Except.error "" }

/-- A concrete turn whose first model response contains one
`get_stock_price` call with malformed arguments. -/
def badArgsOracle : Oracle :=
  { probe := probeFalse
    first := [OutputItem.functionCall "get_stock_price" none]
    followUp := []
    fetch := fun _ => Except.error "" }

/-- A concrete turn: one well-formed tool call, and a follow-up response
carrying narrated text. -/
def goodToolOracle : Oracle :=
  { probe := probeFalse
    first := [fcTicker "AAPL"]
    followUp := [OutputItem.message [{ text := some "The price of AAPL is $150.25 today." }]]
    fetch := fetchOk }

/-- A concrete turn: one well-formed tool call, and an empty follow-up
response (triggering the fallback branch). -/
def fallbackOracle : Oracle :=
  { probe := probeFalse
    first := [fcTicker "AAPL"]
    followUp := []
    fetch := fetchOk }

/-! ## Helper lemmas: string primitives -/

theorem isPre_iff (p : List Char) : ∀ l, isPre p l = true ↔ ∃ t, l = p ++ t := by
  induction p with
  | nil => intro l; simp [isPre]
  | cons a as ih =>
    intro l
    cases l with
    | nil => simp [isPre]
    | cons b bs =>
      simp only [isPre, Bool.and_eq_true, decide_eq_true_eq, ih, List.cons_append,
        List.cons.injEq]
      constructor
      · rintro ⟨rfl, t, rfl⟩; exact ⟨t, rfl, rfl⟩
      · rintro ⟨t, rfl, rfl⟩; exact ⟨rfl, t, rfl⟩

theorem replaceFirst_of_not_contains (pat rep : List Char) :
    ∀ l, containsPat pat l = false → replaceFirst pat rep l = l := by
  intro l
  induction l with
  | nil => intro _; rfl
  | cons x rest ih =>
    intro h
    simp only [containsPat, Bool.or_eq_false_iff] at h
    rw [replaceFirst, if_neg (by simp [h.1]), ih h.2]

theorem countChar_append (c : Char) :
    ∀ l1 l2, countChar c (l1 ++ l2) = countChar c l1 + countChar c l2 := by
  intro l1 l2
  induction l1 with
  | nil => simp [countChar]
  | cons x rest ih => simp [countChar, ih]; omega

theorem countChar_le_length (c : Char) : ∀ l, countChar c l ≤ l.length := by
  intro l
  induction l with
  | nil => simp [countChar]
  | cons x rest ih =>
    simp only [countChar, List.length_cons]
    split <;> omega

theorem containsPat_count_le (c : Char) (pat : List Char) :
    ∀ l, containsPat pat l = true → countChar c pat ≤ countChar c l := by
  intro l
  induction l with
  | nil =>
    intro h
    cases pat with
    | nil => simp [countChar]
    | cons a as => simp [containsPat, List.isEmpty] at h
  | cons x rest ih =>
    intro h
    simp only [containsPat, Bool.or_eq_true] at h
    rcases h with h | h
    · obtain ⟨t, ht⟩ := (isPre_iff pat (x :: rest)).1 h
      rw [ht, countChar_append]; omega
    · have := ih h
      simp only [countChar]
      omega

theorem containsPat_single (c : Char) :
    ∀ l, containsPat [c] l = true ↔ 1 ≤ countChar c l := by
  intro l
  induction l with
  | nil => simp [containsPat, countChar, List.isEmpty]
  | cons x rest ih =>
    simp only [containsPat, Bool.or_eq_true, isPre, Bool.and_eq_true, decide_eq_true_eq,
      countChar, ih]
    constructor
    · rintro (⟨h1, _⟩ | h)
      · rw [if_pos h1.symm]; omega
      · split <;> omega
    · intro h
      by_cases hx : x = c
      · left; exact ⟨hx.symm, trivial⟩
      · right; simp [hx] at h ⊢; omega

theorem countChar_replaceFirst (c : Char) (pat rep : List Char) (hpat : pat ≠ []) :
    ∀ l, containsPat pat l = true →
    countChar c (replaceFirst pat rep l) + countChar c pat =
      countChar c l + countChar c rep := by
  intro l
  induction l with
  | nil =>
    intro h
    cases pat with
    | nil => exact absurd rfl hpat
    | cons a as => simp [containsPat, List.isEmpty] at h
  | cons x rest ih =>
    intro h
    by_cases hp : isPre pat (x :: rest) = true
    · obtain ⟨t, ht⟩ := (isPre_iff pat (x :: rest)).1 hp
      rw [replaceFirst, if_pos hp, ht, List.drop_left, countChar_append,
        countChar_append]
      omega
    · have h2 : containsPat pat rest = true := by
        simp only [containsPat, Bool.or_eq_true] at h
        rcases h with h | h
        · exact absurd h hp
        · exact h
      rw [replaceFirst, if_neg hp]
      have := ih h2
      simp only [countChar]
      omega

/-! ## Helper lemmas: the inline-substitution steps and loops -/

theorem countChar_boldStep (l : List Char) (h : containsPat ['*', '*'] l = true) :
    countChar '*' (boldStep l) + 2 ≤ countChar '*' l := by
  have h1 := countChar_replaceFirst '*' ['*', '*'] ("<b>").data (by simp) l h
  have e1 : countChar '*' ['*', '*'] = 2 := by decide
  have e2 : countChar '*' (("<b>").data) = 0 := by decide
  have e3 : countChar '*' (("</b>").data) = 0 := by decide
  rw [e1, e2] at h1
  by_cases h2 : containsPat ['*', '*'] (replaceFirst ['*', '*'] ("<b>").data l) = true
  · have h3 := countChar_replaceFirst '*' ['*', '*'] ("</b>").data (by simp)
      (replaceFirst ['*', '*'] ("<b>").data l) h2
    rw [e1, e3] at h3
    unfold boldStep
    omega
  · unfold boldStep
    rw [replaceFirst_of_not_contains _ _ _ (Bool.eq_false_iff.2 h2)]
    omega

theorem countChar_underBoldStep (l : List Char)
    (h : containsPat ['_', '_'] l = true) :
    countChar '_' (underBoldStep l) + 2 ≤ countChar '_' l := by
  have h1 := countChar_replaceFirst '_' ['_', '_'] ("<b>").data (by simp) l h
  have e1 : countChar '_' ['_', '_'] = 2 := by decide
  have e2 : countChar '_' (("<b>").data) = 0 := by decide
  have e3 : countChar '_' (("</b>").data) = 0 := by decide
  rw [e1, e2] at h1
  by_cases h2 : containsPat ['_', '_'] (replaceFirst ['_', '_'] ("<b>").data l) = true
  · have h3 := countChar_replaceFirst '_' ['_', '_'] ("</b>").data (by simp)
      (replaceFirst ['_', '_'] ("<b>").data l) h2
    rw [e1, e3] at h3
    unfold underBoldStep
    omega
  · unfold underBoldStep
    rw [replaceFirst_of_not_contains _ _ _ (Bool.eq_false_iff.2 h2)]
    omega

theorem countChar_italStep (l : List Char) (h : containsPat ['*'] l = true)
    (h2 : 2 ≤ countChar '*' l) :
    countChar '*' (italStep l) + 2 = countChar '*' l := by
  have h1 := countChar_replaceFirst '*' ['*'] ("<i>").data (by simp) l h
  have e1 : countChar '*' ['*'] = 1 := by decide
  have e2 : countChar '*' (("<i>").data) = 0 := by decide
  have e3 : countChar '*' (("</i>").data) = 0 := by decide
  rw [e1, e2] at h1
  have hc : containsPat ['*'] (replaceFirst ['*'] ("<i>").data l) = true :=
    (containsPat_single '*' _).2 (by omega)
  have h3 := countChar_replaceFirst '*' ['*'] ("</i>").data (by simp) _ hc
  rw [e1, e3] at h3
  unfold italStep
  omega

theorem countChar_underItalStep (l : List Char) (h : containsPat ['_'] l = true)
    (h2 : 2 ≤ countChar '_' l) :
    countChar '_' (underItalStep l) + 2 = countChar '_' l := by
  have h1 := countChar_replaceFirst '_' ['_'] ("<i>").data (by simp) l h
  have e1 : countChar '_' ['_'] = 1 := by decide
  have e2 : countChar '_' (("<i>").data) = 0 := by decide
  have e3 : countChar '_' (("</i>").data) = 0 := by decide
  rw [e1, e2] at h1
  have hc : containsPat ['_'] (replaceFirst ['_'] ("<i>").data l) = true :=
    (containsPat_single '_' _).2 (by omega)
  have h3 := countChar_replaceFirst '_' ['_'] ("</i>").data (by simp) _ hc
  rw [e1, e3] at h3
  unfold underItalStep
  omega

theorem boldLoop_no_pat :
    ∀ (fuel : ℕ) (l : List Char), countChar '*' l ≤ fuel →
    containsPat ['*', '*'] (boldLoop fuel l) = false := by
  intro fuel
  induction fuel with
  | zero =>
    intro l h
    rw [boldLoop]
    cases hc : containsPat ['*', '*'] l with
    | false => rfl
    | true =>
      have := containsPat_count_le '*' ['*', '*'] l hc
      have e1 : countChar '*' ['*', '*'] = 2 := by decide
      omega
  | succ n ih =>
    intro l h
    rw [boldLoop]
    by_cases hc : containsPat ['*', '*'] l = true
    · rw [if_pos hc]
      exact ih _ (by have := countChar_boldStep l hc; omega)
    · rw [if_neg hc]
      exact Bool.eq_false_iff.2 hc

theorem underBoldLoop_no_pat :
    ∀ (fuel : ℕ) (l : List Char), countChar '_' l ≤ fuel →
    containsPat ['_', '_'] (underBoldLoop fuel l) = false := by
  intro fuel
  induction fuel with
  | zero =>
    intro l h
    rw [underBoldLoop]
    cases hc : containsPat ['_', '_'] l with
    | false => rfl
    | true =>
      have := containsPat_count_le '_' ['_', '_'] l hc
      have e1 : countChar '_' ['_', '_'] = 2 := by decide
      omega
  | succ n ih =>
    intro l h
    rw [underBoldLoop]
    by_cases hc : containsPat ['_', '_'] l = true
    · rw [if_pos hc]
      exact ih _ (by have := countChar_underBoldStep l hc; omega)
    · rw [if_neg hc]
      exact Bool.eq_false_iff.2 hc

theorem italLoop_le_one :
    ∀ (fuel : ℕ) (l : List Char), countChar '*' l ≤ fuel →
    countChar '*' (italLoop fuel l) ≤ 1 := by
  intro fuel
  induction fuel with
  | zero => intro l h; rw [italLoop]; omega
  | succ n ih =>
    intro l h
    rw [italLoop]
    by_cases h2 : 2 ≤ countChar '*' l
    · have hc : containsPat ['*'] l = true := (containsPat_single '*' l).2 (by omega)
      rw [if_pos (by simp [hc, h2])]
      exact ih _ (by have := countChar_italStep l hc h2; omega)
    · rw [if_neg (by simp [h2])]
      omega

theorem italLoop_parity :
    ∀ (fuel : ℕ) (l : List Char), countChar '*' l ≤ fuel →
    countChar '*' (italLoop fuel l) % 2 = countChar '*' l % 2 := by
  intro fuel
  induction fuel with
  | zero => intro l h; rw [italLoop]
  | succ n ih =>
    intro l h
    rw [italLoop]
    by_cases h2 : 2 ≤ countChar '*' l
    · have hc : containsPat ['*'] l = true := (containsPat_single '*' l).2 (by omega)
      rw [if_pos (by simp [hc, h2])]
      have hs := countChar_italStep l hc h2
      have := ih (italStep l) (by omega)
      omega
    · rw [if_neg (by simp [h2])]

theorem underItalLoop_exit :
    ∀ (fuel : ℕ) (l : List Char), countChar '_' l ≤ fuel →
    countChar '_' (underItalLoop fuel l) ≤ 1 ∨
      containsPat ['_', '_'] (underItalLoop fuel l) = true := by
  intro fuel
  induction fuel with
  | zero => intro l h; rw [underItalLoop]; omega
  | succ n ih =>
    intro l h
    rw [underItalLoop]
    by_cases hdd : containsPat ['_', '_'] l = true
    · rw [if_neg (by simp [hdd])]
      right; exact hdd
    · by_cases h2 : 2 ≤ countChar '_' l
      · have hc : containsPat ['_'] l = true := (containsPat_single '_' l).2 (by omega)
        rw [if_pos (by simp [hc, h2, hdd])]
        exact ih _ (by have := countChar_underItalStep l hc h2; omega)
      · rw [if_neg (by simp [h2])]
        omega

/-! ## Helper lemmas: counting two-character markers -/

theorem countOcc2_cons_left (a b x : Char) (hx : x ≠ a) :
    ∀ w, countOcc2 a b (x :: w) = countOcc2 a b w := by
  intro w
  cases w with
  | nil => simp [countOcc2]
  | cons y w2 =>
    rw [countOcc2, if_neg (by intro hc; exact hx hc.1)]

theorem countOcc2_cons2_ne (a b x y : Char) (h : ¬(x = a ∧ y = b)) (w : List Char) :
    countOcc2 a b (x :: y :: w) = countOcc2 a b (y :: w) := by
  rw [countOcc2, if_neg h]

theorem countOcc2_append_clean (a b : Char) :
    ∀ (p t : List Char), (∀ c ∈ p, c ≠ a) →
    countOcc2 a b (p ++ t) = countOcc2 a b t := by
  intro p
  induction p with
  | nil => intro t _; rfl
  | cons q p2 ih =>
    intro t hp
    rw [List.cons_append, countOcc2_cons_left a b q (hp q (by simp))]
    exact ih t (fun c hc => hp c (by simp [hc]))

theorem countOcc2_replaceFirst (a b : Char) (rep : List Char)
    (hrep : ∀ c ∈ rep, c ≠ a ∧ c ≠ b) (hne : rep ≠ []) :
    ∀ l, containsPat [a, b] l = true →
    countOcc2 a b (replaceFirst [a, b] rep l) + 1 = countOcc2 a b l := by
  intro l
  induction l with
  | nil => intro h; simp [containsPat, List.isEmpty] at h
  | cons x rest ih =>
    intro h
    by_cases hp : isPre [a, b] (x :: rest) = true
    · obtain ⟨t, ht⟩ := (isPre_iff [a, b] (x :: rest)).1 hp
      have hx : x = a := by
        have := congrArg (fun l => l.head?) ht
        simpa using this
      have hrest : rest = b :: t := by
        have := congrArg (fun l => l.tail) ht
        simpa using this
      rw [hx, hrest] at hp ⊢
      rw [replaceFirst, if_pos hp]
      have hdrop : (a :: b :: t).drop ([a, b]).length = t := by simp
      rw [hdrop, countOcc2_append_clean a b rep t (fun c hc => (hrep c hc).1)]
      rw [countOcc2, if_pos ⟨rfl, rfl⟩]
      omega
    · have h2 : containsPat [a, b] rest = true := by
        simp only [containsPat, Bool.or_eq_true] at h
        rcases h with h | h
        · exact absurd h hp
        · exact h
      rw [replaceFirst, if_neg hp]
      by_cases hx : x = a
      · rw [hx] at hp ⊢
        cases rest with
        | nil => simp [containsPat, List.isEmpty] at h2
        | cons y rest2 =>
          have hy : y ≠ b := by
            intro hyb
            subst hyb
            exact hp (by simp [isPre])
          have hhead : ∃ z R2, replaceFirst [a, b] rep (y :: rest2) = z :: R2 ∧ z ≠ b := by
            rw [replaceFirst]
            by_cases hp2 : isPre [a, b] (y :: rest2) = true
            · rw [if_pos hp2]
              cases rep with
              | nil => exact absurd rfl hne
              | cons r0 rep2 =>
                exact ⟨r0, rep2 ++ (y :: rest2).drop ([a, b]).length, by simp,
                  (hrep r0 (by simp)).2⟩
            · rw [if_neg hp2]
              exact ⟨y, replaceFirst [a, b] rep rest2, rfl, hy⟩
          obtain ⟨z, R2, hR, hz⟩ := hhead
          rw [hR, countOcc2_cons2_ne a b a z (by intro hc; exact hz hc.2) R2, ← hR]
          rw [countOcc2_cons2_ne a b a y (by intro hc; exact hy hc.2) rest2]
          exact ih h2
      · rw [countOcc2_cons_left a b x hx, countOcc2_cons_left a b x hx]
        exact ih h2

theorem countOcc2_boldStep (l : List Char) (h : containsPat ['*', '*'] l = true) :
    countOcc2 '*' '*' (boldStep l) < countOcc2 '*' '*' l := by
  have hrep1 : ∀ c ∈ ("<b>").data, c ≠ '*' ∧ c ≠ '*' := by decide
  have hrep2 : ∀ c ∈ ("</b>").data, c ≠ '*' ∧ c ≠ '*' := by decide
  have h1 := countOcc2_replaceFirst '*' '*' ("<b>").data hrep1 (by decide) l h
  unfold boldStep
  by_cases h2 : containsPat ['*', '*'] (replaceFirst ['*', '*'] ("<b>").data l) = true
  · have h3 := countOcc2_replaceFirst '*' '*' ("</b>").data hrep2 (by decide) _ h2
    omega
  · rw [replaceFirst_of_not_contains _ _ _ (Bool.eq_false_iff.2 h2)]
    omega

theorem countOcc2_underBoldStep (l : List Char)
    (h : containsPat ['_', '_'] l = true) :
    countOcc2 '_' '_' (underBoldStep l) < countOcc2 '_' '_' l := by
  have hrep1 : ∀ c ∈ ("<b>").data, c ≠ '_' ∧ c ≠ '_' := by decide
  have hrep2 : ∀ c ∈ ("</b>").data, c ≠ '_' ∧ c ≠ '_' := by decide
  have h1 := countOcc2_replaceFirst '_' '_' ("<b>").data hrep1 (by decide) l h
  unfold underBoldStep
  by_cases h2 : containsPat ['_', '_'] (replaceFirst ['_', '_'] ("<b>").data l) = true
  · have h3 := countOcc2_replaceFirst '_' '_' ("</b>").data hrep2 (by decide) _ h2
    omega
  · rw [replaceFirst_of_not_contains _ _ _ (Bool.eq_false_iff.2 h2)]
    omega

/-! ## Helper lemmas: splitting and token shapes -/

theorem splitOnPred_ne_nil (p : Char → Bool) : ∀ l, splitOnPred p l ≠ [] := by
  intro l
  cases l with
  | nil => simp [splitOnPred]
  | cons c rest =>
    rw [splitOnPred]
    by_cases hc : p c = true
    · rw [if_pos hc]; simp
    · rw [if_neg hc]; simp

theorem mem_splitOnPred (p : Char → Bool) :
    ∀ l w, w ∈ splitOnPred p l → ∀ c ∈ w, p c = false := by
  intro l
  induction l with
  | nil =>
    intro w hw c hc
    simp [splitOnPred] at hw
    subst hw
    simp at hc
  | cons x rest ih =>
    intro w hw c hc
    rw [splitOnPred] at hw
    cases hs : splitOnPred p rest with
    | nil => exact absurd hs (splitOnPred_ne_nil p rest)
    | cons q qs =>
      rw [hs] at hw
      simp only [List.headD_cons, List.tail_cons] at hw
      by_cases hx : p x = true
      · rw [if_pos hx] at hw
        rcases List.mem_cons.1 hw with h1 | h1
        · subst h1; simp at hc
        · exact ih w (by rw [hs]; exact h1) c hc
      · rw [if_neg hx] at hw
        rcases List.mem_cons.1 hw with h1 | h1
        · subst h1
          rcases List.mem_cons.1 hc with h2 | h2
          · subst h2; exact Bool.eq_false_iff.2 hx
          · exact ih q (by rw [hs]; exact List.mem_cons_self q qs) c h2
        · exact ih w (by rw [hs]; exact List.mem_cons.2 (Or.inr h1)) c hc

theorem streamWs_token (s t : String) (h : t ∈ streamWs s) :
    ∃ w : String, t = w ++ " " ∧ (' ' ∈ w.data → False) := by
  unfold streamWs pySplitWsStr pySplitWs at h
  rcases List.mem_map.1 h with ⟨w, hw, rfl⟩
  rcases List.mem_map.1 hw with ⟨wl, hwl, rfl⟩
  refine ⟨String.mk wl, rfl, fun hsp => ?_⟩
  have hmem : wl ∈ splitOnPred Char.isWhitespace s.data := (List.mem_filter.1 hwl).1
  have := mem_splitOnPred Char.isWhitespace s.data wl hmem ' ' hsp
  simp [Char.isWhitespace] at this

theorem streamFormatted_token (s t : String) (h : t ∈ streamFormatted s) :
    ∃ w : String, t = w ++ " " ∧ (' ' ∈ w.data → False) := by
  unfold streamFormatted pySplitSpaceStr at h
  rcases List.mem_map.1 h with ⟨w, hw, rfl⟩
  rcases List.mem_map.1 hw with ⟨wl, hwl, rfl⟩
  refine ⟨String.mk wl, rfl, fun hsp => ?_⟩
  have := mem_splitOnPred (fun c => c = ' ') (process_text s).data wl hwl ' ' hsp
  simp at this

/-! ## Helper lemmas: orchestrator branches -/

theorem directBranch_ok (f : List OutputItem) (ts : List String)
    (h : directBranch f = Except.ok ts) :
    (∃ s, ts = streamFormatted s) ∨ ts = streamWs unableText := by
  unfold directBranch at h
  split at h
  · rename_i c rest tail
    cases hc : c.text with
    | some t0 =>
      rw [hc] at h
      left
      exact ⟨t0, by injection h with h2; exact h2.symm⟩
    | none =>
      rw [hc] at h
      right
      injection h with h2
      exact h2.symm
  · right
    injection h with h2
    exact h2.symm

theorem followUpBranch_ok (fu : List OutputItem) (tr : String) (ts : List String)
    (h : followUpBranch fu tr = Except.ok ts) :
    ∃ s, ts = streamFormatted s := by
  unfold followUpBranch at h
  split at h
  · rename_i c rest tail
    cases hc : c.text with
    | some t0 =>
      rw [hc] at h
      exact ⟨t0, by injection h with h2; exact h2.symm⟩
    | none =>
      rw [hc] at h
      cases h
  · exact ⟨tr, by injection h with h2; exact h2.symm⟩

theorem response_generator_ok_shape (o : Oracle) (q : String) (ts : List String)
    (h : (response_generator o q).1 = Except.ok ts) :
    (∃ s, ts = streamWs s) ∨ (∃ s, ts = streamFormatted s) := by
  unfold response_generator at h
  by_cases hrel : is_related_to_stocks_crypto o.probe q = true
  · rw [if_pos hrel] at h
    by_cases hemp : o.first.isEmpty = true
    · rw [if_pos hemp] at h
      left
      exact ⟨noResponseText, by injection h with h2; exact h2.symm⟩
    · rw [if_neg hemp] at h
      by_cases htc : (o.first.filter isToolCall).isEmpty = true
      · rw [if_pos htc] at h
        rcases directBranch_ok o.first ts h with h1 | h1
        · right; exact h1
        · left; exact ⟨unableText, h1⟩
      · rw [if_neg htc] at h
        cases hb : buildStockPrices o.fetch (o.first.filter isToolCall) with
        | error e => rw [hb] at h; cases h
        | ok m =>
          rw [hb] at h
          right
          exact followUpBranch_ok o.followUp (toolResultsStr m) ts h
  · rw [if_neg hrel] at h
    left
    exact ⟨refusalText, by injection h with h2; exact h2.symm⟩

/-! ## Helper lemmas: the QuoteResult mapping -/

theorem keys_updMap_mem (m : List (String × PriceVal)) (k : String) (v : PriceVal)
    (h : m.any (fun p => p.1 = k) = true) :
    (updMap m k v).map Prod.fst = m.map Prod.fst := by
  rw [updMap, if_pos h, List.map_map]
  apply List.map_congr_left
  intro p _
  by_cases hp : p.1 = k
  · simp [hp]
  · simp [hp]

theorem keys_updMap_new (m : List (String × PriceVal)) (k : String) (v : PriceVal)
    (h : m.any (fun p => p.1 = k) = false) :
    (updMap m k v).map Prod.fst = m.map Prod.fst ++ [k] := by
  rw [updMap, if_neg (by simp [h]), List.map_append]
  rfl

theorem lookup_updMap_self (m : List (String × PriceVal)) (k : String) (v : PriceVal) :
    lookupMap (updMap m k v) k = some v := by
  rw [updMap]
  by_cases h : m.any (fun p => p.1 = k) = true
  · rw [if_pos h]
    induction m with
    | nil => simp at h
    | cons p rest ih =>
      by_cases hp : p.1 = k
      · simp only [List.map_cons, if_pos hp]
        rw [lookupMap, if_pos rfl]
      · simp only [List.map_cons, if_neg hp]
        rw [lookupMap, if_neg hp]
        apply ih
        simp only [List.any_cons, Bool.or_eq_true, decide_eq_true_eq] at h
        rcases h with h | h
        · exact absurd h hp
        · simpa using h
  · have hf : m.any (fun p => p.1 = k) = false := Bool.eq_false_iff.2 h
    rw [if_neg h]
    clear h
    induction m with
    | nil => rw [List.nil_append, lookupMap, if_pos rfl]
    | cons p rest ih =>
      simp only [List.any_cons, Bool.or_eq_false_iff, decide_eq_false_iff_not] at hf
      rw [List.cons_append, lookupMap, if_neg hf.1]
      exact ih (by simpa using hf.2)

theorem lookup_updMap_ne (m : List (String × PriceVal)) (k k2 : String) (v : PriceVal)
    (h : k2 ≠ k) : lookupMap (updMap m k v) k2 = lookupMap m k2 := by
  rw [updMap]
  by_cases hm : m.any (fun p => p.1 = k) = true
  · rw [if_pos hm]
    clear hm
    induction m with
    | nil => rfl
    | cons p rest ih =>
      by_cases hp : p.1 = k
      · simp only [List.map_cons, if_pos hp]
        rw [lookupMap, lookupMap, if_neg (fun hc => h hc.symm),
          if_neg (fun hc => h (hc.symm.trans hp))]
        exact ih
      · simp only [List.map_cons, if_neg hp]
        rw [lookupMap, lookupMap]
        by_cases hp2 : p.1 = k2
        · rw [if_pos hp2, if_pos hp2]
        · rw [if_neg hp2, if_neg hp2]
          exact ih
  · rw [if_neg hm]
    clear hm
    induction m with
    | nil =>
      simp only [List.nil_append, lookupMap]
      rw [if_neg (fun hc => h hc.symm)]
    | cons p rest ih =>
      rw [List.cons_append, lookupMap, lookupMap]
      by_cases hp2 : p.1 = k2
      · rw [if_pos hp2, if_pos hp2]
      · rw [if_neg hp2, if_neg hp2]
        exact ih

/-- The update fold performed by the tool-resolution loop on a list of
ticker strings. -/
def updFold (fetch : String → Except String ℚ) (m : List (String × PriceVal))
    (ts : List String) : List (String × PriceVal) :=
  ts.foldl (fun acc t => updMap acc t (get_stock_price fetch t)) m

theorem updFold_eq_build (fetch : String → Except String ℚ) :
    ∀ (ts : List String) (m : List (String × PriceVal)),
    buildStockPricesAux fetch m (ts.map fcTicker) = Except.ok (updFold fetch m ts) := by
  intro ts
  induction ts with
  | nil => intro m; rfl
  | cons t rest ih =>
    intro m
    rw [List.map_cons]
    show buildStockPricesAux fetch m (OutputItem.functionCall "get_stock_price" (some t) :: rest.map fcTicker) = _
    rw [buildStockPricesAux, if_pos rfl]
    rw [ih]
    rfl

theorem updFold_keys (fetch : String → Except String ℚ) :
    ∀ (ts : List String) (m : List (String × PriceVal)),
    (updFold fetch m ts).map Prod.fst =
      m.map Prod.fst ++ dedupKeepFirstAux (m.map Prod.fst) ts := by
  intro ts
  induction ts with
  | nil => intro m; simp [updFold, dedupKeepFirstAux]
  | cons t rest ih =>
    intro m
    have hstep : updFold fetch m (t :: rest) =
        updFold fetch (updMap m t (get_stock_price fetch t)) rest := rfl
    rw [hstep, ih]
    have hbridge : ∀ m2 : List (String × PriceVal),
        (m2.map Prod.fst).any (fun s => s = t) = m2.any (fun p => p.1 = t) := by
      intro m2
      induction m2 with
      | nil => rfl
      | cons p r2 ih2 => simp only [List.map_cons, List.any_cons, ih2]
    by_cases hmem : m.any (fun p => p.1 = t) = true
    · rw [keys_updMap_mem m t _ hmem]
      rw [dedupKeepFirstAux, if_pos (by rw [hbridge m]; exact hmem)]
    · rw [keys_updMap_new m t _ (Bool.eq_false_iff.2 hmem)]
      rw [dedupKeepFirstAux, if_neg (by rw [hbridge m]; exact hmem)]
      simp [List.append_assoc]

theorem updFold_lookup_not_mem (fetch : String → Except String ℚ) :
    ∀ (ts : List String) (m : List (String × PriceVal)) (t : String), t ∉ ts →
    lookupMap (updFold fetch m ts) t = lookupMap m t := by
  intro ts
  induction ts with
  | nil => intro m t _; rfl
  | cons t2 rest ih =>
    intro m t ht
    have h1 : t ≠ t2 := fun hc => ht (by rw [hc]; exact List.mem_cons_self t2 rest)
    have h2 : t ∉ rest := fun hc => ht (List.mem_cons.2 (Or.inr hc))
    have hstep : updFold fetch m (t2 :: rest) =
        updFold fetch (updMap m t2 (get_stock_price fetch t2)) rest := rfl
    rw [hstep, ih _ t h2, lookup_updMap_ne m t2 t _ h1]

theorem updFold_lookup_mem (fetch : String → Except String ℚ) :
    ∀ (ts : List String) (m : List (String × PriceVal)) (t : String), t ∈ ts →
    lookupMap (updFold fetch m ts) t = some (get_stock_price fetch t) := by
  intro ts
  induction ts with
  | nil => intro m t ht; simp at ht
  | cons t2 rest ih =>
    intro m t ht
    have hstep : updFold fetch m (t2 :: rest) =
        updFold fetch (updMap m t2 (get_stock_price fetch t2)) rest := rfl
    by_cases hr : t ∈ rest
    · rw [hstep, ih _ t hr]
    · have h1 : t = t2 := by
        rcases List.mem_cons.1 ht with h | h
        · exact h
        · exact absurd h hr
      subst h1
      rw [hstep, updFold_lookup_not_mem fetch rest _ t hr, lookup_updMap_self]

theorem buildAux_ok (fetch : String → Except String ℚ) :
    ∀ (calls : List OutputItem) (m : List (String × PriceVal)),
    OutputItem.functionCall "get_stock_price" none ∉ calls →
    ∃ m2, buildStockPricesAux fetch m calls = Except.ok m2 := by
  intro calls
  induction calls with
  | nil => intro m _; exact ⟨m, rfl⟩
  | cons c rest ih =>
    intro m h
    have htail : OutputItem.functionCall "get_stock_price" none ∉ rest :=
      fun hc => h (List.mem_cons.2 (Or.inr hc))
    have hhead : OutputItem.functionCall "get_stock_price" none ≠ c :=
      fun hc => h (by rw [hc]; exact List.mem_cons_self c rest)
    cases c with
    | functionCall n arg =>
      by_cases hn : n = "get_stock_price"
      · cases arg with
        | some t =>
          have heq : buildStockPricesAux fetch m (OutputItem.functionCall n (some t) :: rest) =
              buildStockPricesAux fetch (updMap m t (get_stock_price fetch t)) rest := by
            simp only [buildStockPricesAux]
            rw [if_pos hn]
          rw [heq]
          exact ih _ htail
        | none => exact absurd (by rw [hn]) hhead
      · have heq : buildStockPricesAux fetch m (OutputItem.functionCall n arg :: rest) =
            buildStockPricesAux fetch m rest := by
          simp only [buildStockPricesAux]
          rw [if_neg hn]
        rw [heq]
        exact ih _ htail
    | message content => simpa [buildStockPricesAux] using ih m htail
    | other => simpa [buildStockPricesAux] using ih m htail

/-! ## Helper lemmas: heading prefixes and branch totality -/

theorem isPre_h2_not_h3 (l : List Char) (h : isPre ("## ").data l = true) :
    isPre ("### ").data l = false := by
  obtain ⟨t, rfl⟩ := (isPre_iff (("## ").data) l).1 h
  simp [isPre]

theorem isPre_h1_not_h3 (l : List Char) (h : isPre ("# ").data l = true) :
    isPre ("### ").data l = false := by
  obtain ⟨t, rfl⟩ := (isPre_iff (("# ").data) l).1 h
  simp [isPre]

theorem isPre_h1_not_h2 (l : List Char) (h : isPre ("# ").data l = true) :
    isPre ("## ").data l = false := by
  obtain ⟨t, rfl⟩ := (isPre_iff (("# ").data) l).1 h
  simp [isPre]

theorem directBranch_exists_ok (f : List OutputItem) :
    ∃ ts, directBranch f = Except.ok ts := by
  cases f with
  | nil => exact ⟨_, rfl⟩
  | cons it rest =>
    cases it with
    | functionCall n a => exact ⟨_, rfl⟩
    | other => exact ⟨_, rfl⟩
    | message content =>
      cases content with
      | nil => exact ⟨_, rfl⟩
      | cons c cs =>
        cases hc : c.text with
        | some t => exact ⟨streamFormatted t, by simp only [directBranch]; rw [hc]⟩
        | none => exact ⟨streamWs unableText, by simp only [directBranch]; rw [hc]⟩

theorem followUpBranch_exists_ok (fu : List OutputItem) (tr : String)
    (hfu : ∀ (c : ContentItem) (cs : List ContentItem) (rest : List OutputItem),
      fu = OutputItem.message (c :: cs) :: rest → c.text ≠ none) :
    ∃ ts, followUpBranch fu tr = Except.ok ts := by
  cases fu with
  | nil => exact ⟨_, rfl⟩
  | cons it rest =>
    cases it with
    | functionCall n a => exact ⟨_, rfl⟩
    | other => exact ⟨_, rfl⟩
    | message content =>
      cases content with
      | nil => exact ⟨_, rfl⟩
      | cons c cs =>
        cases hc : c.text with
        | some t => exact ⟨streamFormatted t, by simp only [followUpBranch]; rw [hc]⟩
        | none => exact absurd hc (hfu c cs rest rfl)

theorem followUpBranch_fallback (fu : List OutputItem) (tr : String)
    (hfu : ∀ (c : ContentItem) (cs : List ContentItem) (rest : List OutputItem),
      fu ≠ OutputItem.message (c :: cs) :: rest) :
    followUpBranch fu tr = Except.ok (streamFormatted tr) := by
  cases fu with
  | nil => rfl
  | cons it rest =>
    cases it with
    | functionCall n a => rfl
    | other => rfl
    | message content =>
      cases content with
      | nil => rfl
      | cons c cs => exact absurd rfl (hfu c cs rest)

/-! ## Claim theorems -/

/-- C2: for every turn whose query the classifier rejects,
`response_generator` yields exactly the tokens of the fixed refusal
sentence (each whitespace-separated word with one trailing space, so
that their concatenation is the refusal sentence followed by a single
space) and the language-model API is invoked zero times. -/
theorem C2_refusal (o : Oracle) (q : String)
    (h : is_related_to_stocks_crypto o.probe q = false) :
    response_generator o q = (Except.ok (streamWs refusalText), 0) ∧
      String.join (streamWs refusalText) = refusalText ++ " " := by
  constructor
  · rw [response_generator, if_neg (by simp [h])]
  · rfl

/-- Witness for C2 at the spec's own example query. -/
theorem C2_refusal_witness :
    response_generator emptyOracle "What's the weather?" =
      (Except.ok (streamWs refusalText), 0) :=
  (C2_refusal emptyOracle "What's the weather?" (by decide)).1

/-- C3 (code bug): `"XAUUSD"` is in the fixed keyword list and occurs
case-insensitively in the query `"XAUUSD"`, yet the classifier returns
`false` for every probe behaviour: the source lowercases only the query
(`query.lower()`), so the uppercase keyword entry can never match.  The
claim (any query containing a listed keyword case-insensitively yields
`true` with no network call) is therefore violated at this input. -/
theorem C3_xauusd :
    ("XAUUSD" ∈ keywords) ∧
    pyContains (pyLower "XAUUSD") (pyLower "XAUUSD") = true ∧
    ∀ probe : String → Bool, is_related_to_stocks_crypto probe "XAUUSD" = false := by
  refine ⟨by decide, by decide, ?_⟩
  intro probe
  have h1 : keywords.any (fun k => pyContains (pyLower "XAUUSD") k) = false := by decide
  have h2 : company_keywords.any (fun k => pyContains (pyLower "XAUUSD") k) = false := by
    decide
  have h3 : known_companies.any (fun k => pyContains (pyLower "XAUUSD") k) = false := by
    decide
  simp [is_related_to_stocks_crypto, h1, h2, h3]

/-- C5: `get_stock_price` queries the provider at the uppercased ticker
only (its result is determined by the provider's behaviour at
`pyUpper ticker`), returns the rounded price on success, and on any
provider failure returns the inline string
`"Error fetching price for <ticker>: <error>"` instead of raising (it
is a total function into `PriceVal`). -/
theorem C5_fetcher (fetch : String → Except String ℚ) (ticker : String) :
    (∀ q : ℚ, fetch (pyUpper ticker) = Except.ok q →
      get_stock_price fetch ticker = PriceVal.num (round2 q)) ∧
    (∀ e : String, fetch (pyUpper ticker) = Except.error e →
      get_stock_price fetch ticker = PriceVal.err
        ("Error fetching price for " ++ ticker ++ ": " ++ e)) ∧
    (∀ f2 : String → Except String ℚ, f2 (pyUpper ticker) = fetch (pyUpper ticker) →
      get_stock_price f2 ticker = get_stock_price fetch ticker) := by
  refine ⟨?_, ?_, ?_⟩
  · intro q hq; rw [get_stock_price, hq]
  · intro e he; rw [get_stock_price, he]
  · intro f2 h2; rw [get_stock_price, get_stock_price, h2]

/-- Witness for C5 at the spec's example `ZZZZ` (provider raises) and at
a lowercase ticker (provider succeeds with 150.25). -/
theorem C5_fetcher_witness :
    get_stock_price fetchW "ZZZZ" =
      PriceVal.err "Error fetching price for ZZZZ: no price data found" ∧
    get_stock_price fetchW "aapl" = PriceVal.num (Rat.divInt 601 4) := by
  constructor
  · exact (C5_fetcher fetchW "ZZZZ").2.1 "no price data found" rfl
  · have h := (C5_fetcher fetchW "aapl").1 (Rat.divInt 601 4) rfl
    rw [h]
    decide

/-- C1 counterexample: the claim says every failure mode is delivered as
a textual token sequence, but when the first model response contains a
`get_stock_price` function-call item whose arguments do not parse
(malformed JSON or missing `"ticker"` key), the source line
`json.loads(tool_call.arguments)["ticker"]` (chatbot.py:227-228) raises
past the generator's boundary; in the embedding the turn ends in
`Except.error GenError.jsonError` instead of a token list. -/
theorem C1_counterexample :
    response_generator badArgsOracle "stock price?" =
      (Except.error GenError.jsonError, 1) := rfl

/-- C1 (amended): for every oracle behaviour in which each
`get_stock_price` function-call item of the first response has
well-formed arguments and the follow-up response's first content element
(when one exists) carries a `text` field, `response_generator` delivers
its result as a token list through the ordinary return channel — every
remaining failure mode (empty output, unrecognized shape, failed fetch,
empty follow-up) degrades to text rather than raising. -/
theorem C1_amended (o : Oracle) (q : String)
    (hargs : OutputItem.functionCall "get_stock_price" none ∉ o.first)
    (hfu : ∀ (c : ContentItem) (cs : List ContentItem) (rest : List OutputItem),
      o.followUp = OutputItem.message (c :: cs) :: rest → c.text ≠ none) :
    ∃ ts n, response_generator o q = (Except.ok ts, n) := by
  rw [response_generator]
  by_cases hrel : is_related_to_stocks_crypto o.probe q = true
  · rw [if_pos hrel]
    by_cases hemp : o.first.isEmpty = true
    · rw [if_pos hemp]
      exact ⟨_, _, rfl⟩
    · rw [if_neg hemp]
      by_cases htc : (o.first.filter isToolCall).isEmpty = true
      · rw [if_pos htc]
        obtain ⟨ts, hts⟩ := directBranch_exists_ok o.first
        exact ⟨ts, 1, by rw [hts]⟩
      · rw [if_neg htc]
        have hfil : OutputItem.functionCall "get_stock_price" none ∉
            o.first.filter isToolCall :=
          fun hc => hargs (List.mem_of_mem_filter hc)
        obtain ⟨m, hm⟩ := buildAux_ok o.fetch (o.first.filter isToolCall) [] hfil
        obtain ⟨ts, hts⟩ := followUpBranch_exists_ok o.followUp (toolResultsStr m) hfu
        refine ⟨ts, 2, ?_⟩
        show (match buildStockPrices o.fetch (o.first.filter isToolCall) with
          | Except.error e => (Except.error e, 1)
          | Except.ok m => (followUpBranch o.followUp (toolResultsStr m), 2)) = _
        rw [show buildStockPrices o.fetch (o.first.filter isToolCall) = Except.ok m
          from hm]
        simp only []
        rw [hts]
  · rw [if_neg hrel]
    exact ⟨_, _, rfl⟩

/-- Witness for C1 (amended) at a concrete turn with one well-formed
tool call and a narrating follow-up response. -/
theorem C1_amended_witness :
    ∃ ts n, response_generator goodToolOracle "stock price?" = (Except.ok ts, n) := by
  apply C1_amended goodToolOracle "stock price?"
  · decide
  · intro c cs rest h
    simp only [goodToolOracle, List.cons.injEq, OutputItem.message.injEq] at h
    rw [← h.1.1]
    simp

/-- C4 counterexample: the QuoteResult mapping is claimed to be keyed by
the case-normalized upper ticker, but for a tool call carrying ticker
`"aapl"` the source stores `stock_prices[ticker] = price` with the raw
string (chatbot.py:230): the mapping key and the summary line show
`"aapl"`, not `pyUpper "aapl" = "AAPL"` (uppercasing happens only inside
the fetcher). -/
theorem C4_counterexample :
    buildStockPrices fetchOk [fcTicker "aapl"] =
      Except.ok [("aapl", PriceVal.num (Rat.divInt 601 4))] ∧
    toolResultsStr [("aapl", PriceVal.num (Rat.divInt 601 4))] =
      "The latest price for aapl is $150.25" ∧
    ("aapl" : String) ≠ pyUpper "aapl" := by
  refine ⟨rfl, rfl, by decide⟩

/-- C4 (amended): for every fetch behaviour and every list of
`get_stock_price` tool calls with well-formed ticker arguments, the
QuoteResult mapping is keyed by the raw ticker string exactly as it
appears in the tool-call arguments; later calls with the identical
ticker string overwrite the earlier entry in place (the key keeps its
first position) while distinct spellings make distinct entries, the
entry of every requested ticker holds that ticker's fetched price, and
the tool-results text is one summary line
`"The latest price for <ticker> is $<price>"` per mapping entry. -/
theorem C4_amended (fetch : String → Except String ℚ) (ts : List String) :
    ∃ m, buildStockPrices fetch (ts.map fcTicker) = Except.ok m ∧
      m.map Prod.fst = dedupKeepFirst ts ∧
      (∀ t ∈ ts, lookupMap m t = some (get_stock_price fetch t)) ∧
      toolResultsStr m = String.intercalate "\n"
        (m.map (fun p => "The latest price for " ++ p.1 ++ " is $" ++ priceStr p.2)) := by
  refine ⟨updFold fetch [] ts, updFold_eq_build fetch ts [], ?_, ?_, rfl⟩
  · have h := updFold_keys fetch ts []
    simpa [dedupKeepFirst] using h
  · intro t ht
    exact updFold_lookup_mem fetch ts [] t ht

/-- Witness for C4 (amended) on a call list with a case-insensitive
duplicate and an exact duplicate: `"aapl"` and `"AAPL"` stay separate
keys, the exact duplicate collapses. -/
theorem C4_amended_witness :
    ∃ m, buildStockPrices fetchOk (["aapl", "AAPL", "aapl"].map fcTicker) =
        Except.ok m ∧
      m.map Prod.fst = dedupKeepFirst ["aapl", "AAPL", "aapl"] ∧
      lookupMap m "aapl" = some (get_stock_price fetchOk "aapl") := by
  obtain ⟨m, h1, h2, h3, _⟩ := C4_amended fetchOk ["aapl", "AAPL", "aapl"]
  exact ⟨m, h1, h2, h3 "aapl" (by decide)⟩

/-- C6 counterexample: the claim says a line starting with one to three
leading `#` markers becomes a heading of matching level, but the source
checks `line.startswith("### ")` / `"## "` / `"# "` — the marker must be
followed by a space.  The line `"#Hello"` starts with one `#` marker yet
is wrapped in a paragraph, not an `<h1>` heading. -/
theorem C6_counterexample :
    process_text "#Hello" = "<p>#Hello</p>" ∧
      process_text "#Hello" ≠ "<h1>Hello</h1>" := by
  exact ⟨rfl, by decide⟩

/-- C6 (amended): `process_text` maps each blank (whitespace-only) line
to the line-break marker `<br>`; a line starting with `"### "`, `"## "`
or `"# "` (one to three `#` markers followed by a space, longest prefix
first — the three prefixes are mutually exclusive) becomes a heading of
matching level whose content is the line after the marker,
whitespace-trimmed; every other non-blank line is wrapped in a paragraph
element with its content trimmed; each non-blank line then passes
through the inline-emphasis stage, and the processed lines are
concatenated with no separator. -/
theorem C6_amended :
    (∀ l : List Char, (pyStrip l).isEmpty = true → processLine l = ("<br>").data) ∧
    (∀ l : List Char, (pyStrip l).isEmpty = false → isPre ("### ").data l = true →
      processLine l =
        processInline (("<h3>").data ++ pyStrip (l.drop 4) ++ ("</h3>").data)) ∧
    (∀ l : List Char, (pyStrip l).isEmpty = false → isPre ("## ").data l = true →
      processLine l =
        processInline (("<h2>").data ++ pyStrip (l.drop 3) ++ ("</h2>").data)) ∧
    (∀ l : List Char, (pyStrip l).isEmpty = false → isPre ("# ").data l = true →
      processLine l =
        processInline (("<h1>").data ++ pyStrip (l.drop 2) ++ ("</h1>").data)) ∧
    (∀ l : List Char, (pyStrip l).isEmpty = false → isPre ("### ").data l = false →
      isPre ("## ").data l = false → isPre ("# ").data l = false →
      processLine l = processInline (("<p>").data ++ pyStrip l ++ ("</p>").data)) ∧
    (∀ text : String, process_text text =
      String.mk (((splitOnPred (fun c => c = '\n') text.data).map processLine).flatten)) := by
  refine ⟨?_, ?_, ?_, ?_, ?_, ?_⟩
  · intro l h1
    rw [processLine, if_pos h1]
  · intro l h1 h2
    rw [processLine, if_neg (by simp [h1])]
    simp [h2]
  · intro l h1 h2
    rw [processLine, if_neg (by simp [h1])]
    simp [h2, isPre_h2_not_h3 l h2]
  · intro l h1 h2
    rw [processLine, if_neg (by simp [h1])]
    simp [h2, isPre_h1_not_h3 l h2, isPre_h1_not_h2 l h2]
  · intro l h1 h2 h3 h4
    rw [processLine, if_neg (by simp [h1])]
    simp [h2, h3, h4]
  · intro text
    rfl

/-- Witness for C6 (amended) at a blank line, a heading line and a
paragraph line. -/
theorem C6_amended_witness :
    processLine (("   ").data) = ("<br>").data ∧
    processLine (("# Hello").data) =
      processInline (("<h1>").data ++ pyStrip ((("# Hello").data).drop 2) ++ ("</h1>").data) ∧
    processLine (("plain").data) =
      processInline (("<p>").data ++ pyStrip (("plain").data) ++ ("</p>").data) := by
  refine ⟨C6_amended.1 _ (by decide),
    C6_amended.2.2.2.1 _ (by decide) (by decide),
    C6_amended.2.2.2.2.1 _ (by decide) (by decide) (by decide) (by decide)⟩

/-- C7 counterexample: the claim says an odd marker count — including
`**` — leaves the trailing unmatched markers un-converted as literal
characters; but for the line `"**Hi there"` (one `**` occurrence) the
source's `while "**" in line` loop converts the unmatched `**` into an
opening `<b>` tag and no literal `*` remains in the output. -/
theorem C7_counterexample :
    process_text "**Hi there" = "<p><b>Hi there</p>" ∧
    countChar '*' ((process_text "**Hi there").data) = 0 := by
  exact ⟨rfl, by decide⟩

/-- C7 (amended): paired emphasis markers are converted to tags
(`"**Hi** there"` becomes `<b>Hi</b> there` inside a paragraph tag); an
odd count of the single-character markers `*` / `_` leaves exactly the
final unmatched marker literal (in general: an italics pass started on a
line with an odd `*` count ends with exactly one `*` left); but an
unmatched `**` or `__` is converted into an opening `<b>` tag rather
than left literal. -/
theorem C7_amended :
    process_text "**Hi** there" = "<p><b>Hi</b> there</p>" ∧
    process_text "*Hi* there*" = "<p><i>Hi</i> there*</p>" ∧
    process_text "_Hi_ there_" = "<p><i>Hi</i> there_</p>" ∧
    process_text "__Hi there" = "<p><b>Hi there</p>" ∧
    (∀ (fuel : ℕ) (l : List Char), countChar '*' l ≤ fuel →
      countChar '*' l % 2 = 1 → countChar '*' (italLoop fuel l) = 1) := by
  refine ⟨rfl, rfl, rfl, rfl, ?_⟩
  intro fuel l hf hodd
  have h1 := italLoop_le_one fuel l hf
  have h2 := italLoop_parity fuel l hf
  omega

/-- Witness for C7 (amended): an italics pass on a line with three `*`
markers ends with exactly one literal `*`. -/
theorem C7_amended_witness :
    countChar '*' (italLoop 3 (("a*b*c*").data)) = 1 :=
  C7_amended.2.2.2.2 3 (("a*b*c*").data) (by decide) (by decide)

/-- C8 counterexample: when the follow-up response has no usable output
the fallback is claimed to stream the raw joined tool-result lines
unformatted; but the source applies `process_text` to them
(chatbot.py:271), so the streamed tokens carry paragraph markup
(`"<p>The"` … `"$150.25</p>"`) and differ from the tokens of the raw
line. -/
theorem C8_counterexample :
    response_generator fallbackOracle "stock" =
      (Except.ok ["<p>The ", "latest ", "price ", "for ", "AAPL ", "is ",
        "$150.25</p> "], 2) ∧
    ["<p>The ", "latest ", "price ", "for ", "AAPL ", "is ", "$150.25</p> "] ≠
      (pySplitSpaceStr "The latest price for AAPL is $150.25").map
        (fun w => w ++ " ") := by
  exact ⟨rfl, by decide⟩

/-- C8 (amended): whenever the tool path is taken and the follow-up
response has no output items, or its first item has no content list, or
an empty one, the orchestrator streams the joined tool-result summary
lines passed through the Markup Formatter (paragraph-wrapped by
`process_text`, not raw) as the fallback answer. -/
theorem C8_amended (o : Oracle) (q : String) (m : List (String × PriceVal))
    (hrel : is_related_to_stocks_crypto o.probe q = true)
    (hne : o.first.isEmpty = false)
    (htc : (o.first.filter isToolCall).isEmpty = false)
    (hb : buildStockPrices o.fetch (o.first.filter isToolCall) = Except.ok m)
    (hfu : ∀ (c : ContentItem) (cs : List ContentItem) (rest : List OutputItem),
      o.followUp ≠ OutputItem.message (c :: cs) :: rest) :
    response_generator o q = (Except.ok (streamFormatted (toolResultsStr m)), 2) := by
  rw [response_generator, if_pos hrel, if_neg (by simp [hne]), if_neg (by simp [htc])]
  show (match buildStockPrices o.fetch (o.first.filter isToolCall) with
    | Except.error e => (Except.error e, 1)
    | Except.ok m => (followUpBranch o.followUp (toolResultsStr m), 2)) = _
  rw [hb]
  simp only []
  rw [followUpBranch_fallback o.followUp (toolResultsStr m) hfu]

/-- Witness for C8 (amended) at a concrete turn with one resolved tool
call and an empty follow-up response. -/
theorem C8_amended_witness :
    response_generator fallbackOracle "stock" =
      (Except.ok (streamFormatted
        (toolResultsStr [("AAPL", PriceVal.num (Rat.divInt 601 4))])), 2) := by
  apply C8_amended fallbackOracle "stock" [("AAPL", PriceVal.num (Rat.divInt 601 4))]
    rfl rfl rfl rfl
  intro c cs rest h
  simp [fallbackOracle] at h

/-- C9: `process_text` terminates on every finite input.  Each
inline-substitution loop body strictly decreases the number of
occurrences of its marker on the line (the non-overlapping `**` / `__`
count for the bold loops, the `*` / `_` character count for the italics
loops, whose guards also require at least two markers), because the
inserted tags contain no marker characters; consequently every loop,
run with the fuel `process_text` supplies, reaches a state where its
guard is false (no `**` / `__` remains; at most one `*` remains; at
most one `_` remains unless a `__` blocks the loop). -/
theorem C9_termination :
    (∀ l : List Char, containsPat ['*', '*'] l = true →
      countOcc2 '*' '*' (boldStep l) < countOcc2 '*' '*' l) ∧
    (∀ l : List Char, containsPat ['_', '_'] l = true →
      countOcc2 '_' '_' (underBoldStep l) < countOcc2 '_' '_' l) ∧
    (∀ l : List Char, containsPat ['*'] l = true → 2 ≤ countChar '*' l →
      countChar '*' (italStep l) < countChar '*' l) ∧
    (∀ l : List Char, containsPat ['_'] l = true → 2 ≤ countChar '_' l →
      countChar '_' (underItalStep l) < countChar '_' l) ∧
    (∀ l : List Char, containsPat ['*', '*'] (boldRun l) = false) ∧
    (∀ l : List Char, containsPat ['_', '_'] (underBoldRun l) = false) ∧
    (∀ l : List Char, countChar '*' (italRun l) ≤ 1) ∧
    (∀ l : List Char, countChar '_' (underItalRun l) ≤ 1 ∨
      containsPat ['_', '_'] (underItalRun l) = true) := by
  refine ⟨countOcc2_boldStep, countOcc2_underBoldStep, ?_, ?_, ?_, ?_, ?_, ?_⟩
  · intro l h h2
    have := countChar_italStep l h h2
    omega
  · intro l h h2
    have := countChar_underItalStep l h h2
    omega
  · intro l
    exact boldLoop_no_pat l.length l (countChar_le_length '*' l)
  · intro l
    exact underBoldLoop_no_pat l.length l (countChar_le_length '_' l)
  · intro l
    exact italLoop_le_one l.length l (countChar_le_length '*' l)
  · intro l
    exact underItalLoop_exit l.length l (countChar_le_length '_' l)

/-- Witness for C9 at a line with two `**` markers and three `*`
markers. -/
theorem C9_termination_witness :
    countOcc2 '*' '*' (boldStep (("a**b**c").data)) <
      countOcc2 '*' '*' (("a**b**c").data) ∧
    countChar '*' (italStep (("x*y*z*").data)) < countChar '*' (("x*y*z*").data) :=
  ⟨C9_termination.1 _ (by decide), C9_termination.2.2.1 _ (by decide) (by decide)⟩

/-- C10: on every path through `response_generator` that delivers a
token list — refusal, the two fixed error messages, the narrated
answer, the fallback, and the direct text response — every yielded
token is a word followed by exactly one appended trailing space: it
decomposes as `w ++ " "` where `w` contains no space character. -/
theorem C10_tokens (o : Oracle) (q : String) (ts : List String)
    (h : (response_generator o q).1 = Except.ok ts) :
    ∀ t ∈ ts, ∃ w : String, t = w ++ " " ∧ (' ' ∈ w.data → False) := by
  intro t ht
  rcases response_generator_ok_shape o q ts h with ⟨s, rfl⟩ | ⟨s, rfl⟩
  · exact streamWs_token s t ht
  · exact streamFormatted_token s t ht

/-- Witness for C10 at the refusal path's first token. -/
theorem C10_tokens_witness :
    ∃ w : String, ("I " : String) = w ++ " " ∧ (' ' ∈ w.data → False) :=
  C10_tokens emptyOracle "What's the weather?" (streamWs refusalText) rfl "I "
    (by decide)
